import Mathlib

/-!
Verification development for the T.O.N.Y chatbot backend
(`backend/main.py`): a shallow embedding of the conversation store,
prompt builder, visual formatter and chat request handler, together
with theorems settling the frozen claims about them.

Python strings are modelled as `List Char`; the mutable per-process
store (a dict from session id to a list of turns) is modelled as an
association list threaded explicitly through the operations.  The
wall-clock timestamps produced by `datetime.now(timezone.utc)` are
modelled as `Nat` clock readings supplied by the caller (ISO-8601
strings of a monotone UTC clock compare like the instants they denote).
-/

/-! ## Python string primitives -/

/-- The whitespace characters removed by Python `str.strip()`
(ASCII range; `main.py` only ever strips ASCII payloads). -/
def pyIsSpace (c : Char) : Bool :=
  c = ' ' || c = '\t' || c = '\n' || c = '\r' || c = '\x0b' || c = '\x0c'

/-- Python `str.strip()`: drop leading and trailing whitespace. -/
def pyStrip (l : List Char) : List Char :=
  ((l.dropWhile pyIsSpace).reverse.dropWhile pyIsSpace).reverse

/-- Python `str.capitalize()`: first character upper-cased, the rest
lower-cased (`main.py` line 313 applies it to the stored role). -/
def pyCapitalize : List Char → List Char
  | [] => []
  | c :: rest => c.toUpper :: rest.map Char.toLower

/-- Python `sep.join(pieces)` on a list of strings. -/
def pyJoin (sep : List Char) : List (List Char) → List Char
  | [] => []
  | [x] => x
  | x :: y :: ys => x ++ sep ++ pyJoin sep (y :: ys)

/-- Helper for `pairCount`: scans the list remembering the previous
character. -/
def pairCountAux (x y : Char) : Char → List Char → Nat
  | _, [] => 0
  | prev, c :: rest => (if prev = x ∧ c = y then 1 else 0) + pairCountAux x y c rest

/-- Number of indices `i` with `l[i] = x` and `l[i+1] = y`.  Used to
count two-character landmarks (such as a paragraph-tag opener) inside
generated HTML. -/
def pairCount (x y : Char) : List Char → Nat
  | [] => 0
  | a :: rest => pairCountAux x y a rest

@[simp] theorem pairCount_nil (x y : Char) : pairCount x y [] = 0 := rfl

@[simp] theorem pairCount_one (x y c : Char) : pairCount x y (c :: []) = 0 := rfl

theorem pairCount_cons2 (x y a b : Char) (rest : List Char) :
    pairCount x y (a :: b :: rest) =
      (if a = x ∧ b = y then 1 else 0) + pairCount x y (b :: rest) := rfl

/-! ## Conversation store (`ConversationMemory`, main.py lines 63-101)

The dict `self._store` is an insertion-ordered map; we model it as an
association list in which `add_message` updates the entry in place and
appends a fresh key at the end, exactly like a Python dict.  The lock
serialises each operation, so each operation is one pure state
transition. -/

/-- One stored message (`{"role": ..., "text": ..., "timestamp": ...}`). -/
structure Turn where
  role : List Char
  text : List Char
  timestamp : Nat
deriving DecidableEq

/-- The `session_id -> list of turns` map of `ConversationMemory`. -/
abbrev Store := List (String × List Turn)

/-- `self._store.get(session_id, [])`. -/
def lookupStore : Store → String → List Turn
  | [], _ => []
  | (k, v) :: rest, sid => if k = sid then v else lookupStore rest sid

/-- `ConversationMemory.add_message` (main.py lines 74-80): create the
session if absent (new dict key goes at the end, per insertion order),
then append the stamped turn. -/
def add_message : Store → String → List Char → List Char → Nat → Store
  | [], sid, role, text, ts => [(sid, [⟨role, text, ts⟩])]
  | (k, v) :: rest, sid, role, text, ts =>
      if k = sid then (k, v ++ [⟨role, text, ts⟩]) :: rest
      else (k, v) :: add_message rest sid role text ts

/-- `ConversationMemory.get_all` (main.py lines 88-90); the Python copy
`list(...)` is the identity in the pure model. -/
def get_all (st : Store) (sid : String) : List Turn := lookupStore st sid

/-- Python slice `items[s:]` for an arbitrary (possibly negative)
integer start `s`. -/
def pySliceFrom (items : List Turn) (s : Int) : List Turn :=
  if s < 0 then items.drop (((items.length : Int) + s).toNat)
  else items.drop ((min s (items.length : Int)).toNat)

/-- `ConversationMemory.get_recent` (main.py lines 82-86):
`items[-limit:] if limit and len(items) > limit else items`, where a
zero `limit` is falsy. -/
def get_recent (st : Store) (sid : String) (limit : Int) : List Turn :=
  let items := lookupStore st sid
  if limit ≠ 0 ∧ (limit : Int) < (items.length : Int) then pySliceFrom items (-limit)
  else items

/-- `ConversationMemory.clear` (main.py lines 92-94): `pop(sid, None)`
removes the (unique, by dict semantics) entry for the key. -/
def clear : Store → String → Store
  | [], _ => []
  | (k, v) :: rest, sid => if k = sid then rest else (k, v) :: clear rest sid

/-- `ConversationMemory.sessions` (main.py lines 96-98). -/
def sessions (st : Store) : List String := st.map Prod.fst

/-! ## Visual formatter (`build_visual_payload`, main.py lines 265-284) -/

/-- `text.replace("\r\n", "\n").replace("\r", "\n")` fused into one
left-to-right scan (the two sequential replaces never interfere: the
first consumes every `"\r\n"` pair, the second rewrites the remaining
lone `'\r'`s). -/
def normNewlines : List Char → List Char
  | [] => []
  | '\r' :: '\n' :: rest => '\n' :: normNewlines rest
  | '\r' :: rest => '\n' :: normNewlines rest
  | c :: rest => c :: normNewlines rest

/-- Python `text.split("\n")`: split on every newline, keeping empty
pieces. -/
def splitOnNl : List Char → List (List Char)
  | [] => [[]]
  | '\n' :: rest => [] :: splitOnNl rest
  | c :: rest =>
      match splitOnNl rest with
      | piece :: pieces => (c :: piece) :: pieces
      | [] => [[c]]

/-- Python `text.split("\n\n")`: greedy left-to-right split on the
two-character separator, keeping empty pieces. -/
def splitOnNlNl : List Char → List (List Char)
  | [] => [[]]
  | '\n' :: '\n' :: rest => [] :: splitOnNlNl rest
  | c :: rest =>
      match splitOnNlNl rest with
      | piece :: pieces => (c :: piece) :: pieces
      | [] => [[c]]

/-- `html.escape` on one character.  The Python library performs the
five replacements sequentially (`&` first); since no entity text
contains a character that a later replacement rewrites, this equals the
per-character expansion below. -/
def escapeChar (c : Char) : List Char :=
  if c = '&' then "&amp;".data
  else if c = '<' then "&lt;".data
  else if c = '>' then "&gt;".data
  else if c = '"' then "&quot;".data
  else if c = '\'' then "&#x27;".data
  else [c]

/-- `html_lib.escape(p)` (quote mode, the default). -/
def htmlEscape (l : List Char) : List Char := l.flatMap escapeChar

/-- The `safe.replace("\n", "<br>")` step, per character. -/
def brChar (c : Char) : List Char := if c = '\n' then "<br>".data else [c]

/-- One entry of the `segments` list of the visual payload. -/
structure Segment where
  type : List Char
  text : List Char
deriving DecidableEq

/-- The `{html, markdown, segments}` result of `build_visual_payload`. -/
structure VisualPayload where
  html : List Char
  markdown : List Char
  segments : List Segment
deriving DecidableEq

/-- The paragraph list of `build_visual_payload` (main.py lines
268-272): normalise newlines, split on a blank line if one is present
and on single newlines otherwise, strip each piece and drop the pieces
that strip to nothing. -/
def vfParagraphs (text : List Char) : List (List Char) :=
  if ('\n' :: '\n' :: []) <:+: normNewlines text
  then ((splitOnNlNl (normNewlines text)).map pyStrip).filter (fun p => !p.isEmpty)
  else ((splitOnNl (normNewlines text)).map pyStrip).filter (fun p => !p.isEmpty)

/-- One HTML paragraph fragment (main.py lines 277-279): escape, turn
inner newlines into `<br>`, wrap in a paragraph tag. -/
def vfPart (p : List Char) : List Char :=
  "<p>".data ++ ((htmlEscape p).flatMap brChar) ++ "</p>".data

/-- `build_visual_payload` (main.py lines 265-284).  The `text is None`
guard is vacuous here because the model's input is a total string. -/
def build_visual_payload (text : List Char) : VisualPayload :=
  let paragraphs := vfParagraphs text
  let html_parts := paragraphs.map vfPart
  let segments := paragraphs.map (fun p => (⟨"paragraph".data, p⟩ : Segment))
  let html := if html_parts.isEmpty then "<p>(empty)</p>".data
    else pyJoin ('\n' :: []) html_parts
  let markdown := if paragraphs.isEmpty then []
    else pyJoin ('\n' :: '\n' :: []) paragraphs
  ⟨html, markdown, segments⟩

/-! ## Prompt builder (`build_prompt_with_context`, main.py 286-324) -/

/-- The loop body of the history section: for each recent turn, skip
`system` entries, otherwise emit `"<Role>: <stripped text>"`. -/
def historyLines : List Turn → List (List Char)
  | [] => []
  | it :: rest =>
      if it.role = "system".data then historyLines rest
      else (pyCapitalize it.role ++ ": ".data ++ pyStrip it.text) :: historyLines rest

/-- `build_prompt_with_context` accumulates `parts` in three blocks; the
Python guard `if session_id:` is falsy for `None` and for the empty
string. -/
def promptParts (st : Store) (session_id : Option String) (user_message : List Char)
    (memory_size : Int) : List (List Char) :=
  (match session_id with
   | some sid =>
       if sid = "" then [] else
       let all_items := get_all st sid
       let system_msgs := all_items.filter (fun it => it.role == "system".data)
       if system_msgs.isEmpty then [] else
         "System instructions:".data :: (system_msgs.map (fun it => pyStrip it.text) ++ [[]])
   | none => []) ++
  (match session_id with
   | some sid =>
       if sid = "" then [] else
       let recent := get_recent st sid memory_size
       if recent.isEmpty then [] else
         "Conversation history (oldest → newest):".data :: (historyLines recent ++ [[]])
   | none => []) ++
  ["User: ".data ++ pyStrip user_message, "Assistant:".data]

/-- `build_prompt_with_context` (main.py lines 286-324):
`"\n".join(parts)`. -/
def build_prompt_with_context (st : Store) (session_id : Option String)
    (user_message : List Char) (memory_size : Int) : List Char :=
  pyJoin ('\n' :: []) (promptParts st session_id user_message memory_size)

/-! ## Chat request handler (`chat`, main.py lines 339-441)

The external Gemini call is modelled as an oracle
`llm : prompt → Except error extractedText`: `Except.error e` is a
raised exception with detail `e`, `Except.ok t` is a completed call
whose defensive text extraction produced `t` (empty for the falsy
`None`/`""` outcomes).  `build_canvas_script` is pure string templating
of the configuration into a fixed JS template, so a response's script is
determined by its `CanvasConfig`; we record that configuration. -/

/-- The parameters of `build_canvas_script` (main.py lines 106-116). -/
structure CanvasConfig where
  canvas_w : Nat
  canvas_h : Nat
  bg : List Char
  bubble : List Char
  text_color : List Char
  author_badge : List Char
  font_family : List Char
  line_height : Nat
  typing_speed : Nat
deriving DecidableEq

/-- The chat request body (`ChatRequest`, main.py lines 39-43). -/
structure ChatRequest where
  message : List Char
  session_id : Option String
  memory_size : Option Int
  system : Option (List Char)

/-- The response record (`ChatResponse`, main.py lines 45-53), with the
canvas script represented by its templating configuration. -/
structure ChatResponse where
  response : List Char
  model : String
  html : List Char
  markdown : List Char
  segments : List Segment
  timestamp : Nat
  session_id : String
  canvas_script : CanvasConfig
deriving DecidableEq

/-- `req.session_id or f"session-{...millis...}"` (main.py line 343):
Python `or` takes the fallback for `None` and for the empty string. -/
def resolveSession (session_id : Option String) (now : Nat) : String :=
  match session_id with
  | some s => if s = "" then "session-" ++ toString now else s
  | none => "session-" ++ toString now

/-- `req.memory_size if (req.memory_size and req.memory_size > 0) else 6`
(main.py line 345): `None` and `0` are falsy, non-positive clamps to 6. -/
def clampMemory (m : Option Int) : Int :=
  match m with
  | some v => if 0 < v then v else 6
  | none => 6

/-- `if req.system: memory.add_message(session_id, "system", req.system)`
(main.py lines 348-349); the empty string is falsy. -/
def applySystem (st : Store) (sid : String) (sys : Option (List Char)) (now : Nat) : Store :=
  match sys with
  | some s => if s.isEmpty then st else add_message st sid "system".data s now
  | none => st

/-- The store after the handler has stored the user's message on the
normal branch (system turn, if any, then the `user` turn). -/
def preState (st : Store) (req : ChatRequest) (now : Nat) : Store :=
  add_message (applySystem st (resolveSession req.session_id now) req.system now)
    (resolveSession req.session_id now) "user".data req.message now

/-- The prompt the handler hands to the external model (main.py
line 372). -/
def chatPrompt (st : Store) (req : ChatRequest) (now : Nat) : List Char :=
  build_prompt_with_context (preState st req now) (some (resolveSession req.session_id now))
    req.message (clampMemory req.memory_size)

/-- The `chat` endpoint handler (main.py lines 339-441) as a pure state
transformer: given the credential flag, the external-model oracle, the
store and the clock reading, produce the response and the new store. -/
def chat (hasKey : Bool) (llm : List Char → Except (List Char) (List Char))
    (st : Store) (req : ChatRequest) (now : Nat) : ChatResponse × Store :=
  let session_id := resolveSession req.session_id now
  let st1 := applySystem st session_id req.system now
  if hasKey then
    let st2 := add_message st1 session_id "user".data req.message now
    match llm (chatPrompt st req now) with
    | Except.ok t0 =>
        let text := if t0.isEmpty then "(empty response)".data else t0
        let st3 := add_message st2 session_id "assistant".data text now
        let visual := build_visual_payload text
        (⟨text, "gemini-2.5-flash", visual.html, visual.markdown, visual.segments, now,
          session_id,
          ⟨520, 180, "#0f172a".data, "#ffffff".data, "#0b1220".data, "Assistant".data,
            "16px Inter, Arial".data, 20, 45⟩⟩, st3)
    | Except.error e =>
        let err_text := "Error communicating with Gemini API: ".data ++ e
        let st3 := add_message st2 session_id "assistant".data err_text now
        let visual := build_visual_payload err_text
        (⟨err_text, "gemini-2.5-flash", visual.html, visual.markdown, visual.segments, now,
          session_id,
          ⟨520, 140, "#0f172a".data, "#fff7f7".data, "#7a1f1f".data, "Assistant".data,
            "16px Arial".data, 22, 40⟩⟩, st3)
  else
    (⟨"Server is missing GEMINI_API_KEY. Please set it in .env.".data, "gemini-2.5-flash",
      "<p><strong>Server is missing GEMINI_API_KEY.</strong> Please set it in .env.</p>".data,
      "**Server is missing GEMINI_API_KEY.** Please set it in .env.".data,
      [⟨"error".data, "Server is missing GEMINI_API_KEY. Please set it in .env.".data⟩],
      now, session_id,
      ⟨520, 140, "#0f172a".data, "#fff3f0".data, "#6b2800".data, "Server".data,
        "16px Arial".data, 22, 40⟩⟩, st1)

/-- Repeated `add_message` calls on one session. -/
def addAll (st : Store) (sid : String) : List (List Char × List Char × Nat) → Store
  | [] => st
  | c :: cs => addAll (add_message st sid c.1 c.2.1 c.2.2) sid cs

/-! ## Store lemmas -/

/-- Closed form of `get_recent`: a positive limit keeps the last
`min(limit, length)` turns, a zero limit keeps everything, and a
negative limit drops the first `min(-limit, length)` turns (the Python
slice `items[-limit:]` with a positive start). -/
theorem get_recent_eq (st : Store) (sid : String) (k : Int) :
    get_recent st sid k =
      (if k = 0 then lookupStore st sid
       else if 0 < k then (lookupStore st sid).drop ((lookupStore st sid).length - k.toNat)
       else (lookupStore st sid).drop (min (-k).toNat (lookupStore st sid).length)) := by
  simp only [get_recent, pySliceFrom]
  split_ifs with h1 h2 h3 h4 h5 h6 h7 <;>
    first
      | rfl
      | omega
      | (congr 1; omega)
      | (have hz : (lookupStore st sid).length - k.toNat = 0 := by omega
         rw [hz, List.drop_zero])

theorem lookup_add_self (st : Store) (sid : String) (r t : List Char) (ts : Nat) :
    lookupStore (add_message st sid r t ts) sid = lookupStore st sid ++ [⟨r, t, ts⟩] := by
  induction st with
  | nil => simp [add_message, lookupStore]
  | cons e rest ih =>
      obtain ⟨k, v⟩ := e
      by_cases hk : k = sid
      · simp [add_message, lookupStore, hk]
      · simp [add_message, lookupStore, hk, ih]

theorem get_all_add (st : Store) (sid : String) (r t : List Char) (ts : Nat) :
    get_all (add_message st sid r t ts) sid = get_all st sid ++ [⟨r, t, ts⟩] :=
  lookup_add_self st sid r t ts

theorem get_all_addAll (st : Store) (sid : String)
    (calls : List (List Char × List Char × Nat)) :
    get_all (addAll st sid calls) sid =
      get_all st sid ++ calls.map (fun c => (⟨c.1, c.2.1, c.2.2⟩ : Turn)) := by
  induction calls generalizing st with
  | nil => simp [addAll]
  | cons c cs ih => simp [addAll, ih, get_all_add]

theorem lookup_add_other (st : Store) (s t : String) (r x : List Char) (ts : Nat)
    (hst : s ≠ t) : lookupStore (add_message st s r x ts) t = lookupStore st t := by
  induction st with
  | nil => simp [add_message, lookupStore, hst]
  | cons e rest ih =>
      obtain ⟨k, v⟩ := e
      by_cases hk : k = s
      · subst hk
        simp [add_message, lookupStore, hst, ih]
      · simp [add_message, lookupStore, hk, ih]

theorem lookup_clear_other (st : Store) (s t : String) (hst : s ≠ t) :
    lookupStore (clear st s) t = lookupStore st t := by
  induction st with
  | nil => simp [clear]
  | cons e rest ih =>
      obtain ⟨k, v⟩ := e
      by_cases hk : k = s
      · subst hk
        simp [clear, lookupStore, hst, ih]
      · simp [clear, lookupStore, hk, ih]

theorem mem_sessions_add (st : Store) (s : String) (r x : List Char) (ts : Nat) (y : String) :
    y ∈ sessions (add_message st s r x ts) ↔ y ∈ sessions st ∨ y = s := by
  induction st with
  | nil => simp [add_message, sessions]
  | cons e rest ih =>
      obtain ⟨k, v⟩ := e
      by_cases hk : k = s
      · subst hk
        simp [add_message, sessions] at ih ⊢
        tauto
      · simp [add_message, sessions, hk] at ih ⊢
        tauto

theorem mem_sessions_clear (st : Store) (s : String) (y : String)
    (hnd : (st.map Prod.fst).Nodup) :
    y ∈ sessions (clear st s) ↔ y ∈ sessions st ∧ y ≠ s := by
  induction st with
  | nil => simp [clear, sessions]
  | cons e rest ih =>
      obtain ⟨k, v⟩ := e
      simp only [List.map_cons, List.nodup_cons] at hnd
      obtain ⟨hk1, hk2⟩ := hnd
      by_cases hk : k = s
      · subst hk
        simp only [clear, if_pos rfl, sessions, List.mem_cons, List.map_cons]
        constructor
        · intro hy
          refine ⟨Or.inr hy, ?_⟩
          rintro rfl
          exact hk1 hy
        · rintro ⟨hy | hy, hne⟩
          · exact absurd hy hne
          · exact hy
      · simp only [clear, if_neg hk, sessions, List.map_cons, List.mem_cons] at ih ⊢
        rw [ih hk2]
        constructor
        · rintro (rfl | ⟨hy, hne⟩)
          · exact ⟨Or.inl rfl, hk⟩
          · exact ⟨Or.inr hy, hne⟩
        · rintro ⟨rfl | hy, hne⟩
          · exact Or.inl rfl
          · exact Or.inr ⟨hy, hne⟩

/-! ## Demonstration stores used by witnesses and counterexamples -/

def demoStore : Store :=
  addAll [] "s" [("user".data, "Hi".data, 0), ("assistant".data, "Hello!".data, 1)]

def demoStore6 : Store :=
  addAll [] "s" [("system".data, "Be concise.".data, 0),
    ("user".data, "Hi".data, 1), ("assistant".data, "Hello!".data, 2)]

/-! ## Claim C1 -/

/-- Claim C1 counterexample: for the session `"s"` holding two turns,
`get_recent` with limit `-1` returns the last turn only (the Python
slice `items[1:]`), not the full stored sequence as the claim states
for `k <= 0`. -/
theorem claim_c1_counterexample :
    get_recent demoStore "s" (-1) ≠ get_all demoStore "s" := by decide

/-- Claim C1 (amended): for positive `k`, `get_recent` returns the last
`min(k, length)` stored turns in original order (for an unknown session
this is empty); for `k = 0` it returns the full stored sequence; for
`k < 0` it instead returns the suffix obtained by dropping the first
`min(-k, length)` turns. -/
theorem claim_c1_get_recent (st : Store) (sid : String) (k : Int) :
    (0 < k → get_recent st sid k =
        (lookupStore st sid).drop ((lookupStore st sid).length - k.toNat)) ∧
    (k = 0 → get_recent st sid k = lookupStore st sid) ∧
    (k < 0 → get_recent st sid k =
        (lookupStore st sid).drop (min (-k).toNat (lookupStore st sid).length)) ∧
    (lookupStore st sid = [] → get_recent st sid k = []) := by
  have h := get_recent_eq st sid k
  refine ⟨?_, ?_, ?_, ?_⟩ <;> intro hk <;> rw [h]
  · rw [if_neg (by omega), if_pos hk]
  · rw [if_pos hk]
  · rw [if_neg (by omega), if_neg (by omega)]
  · split_ifs <;> simp [hk]

/-- Witness for claim C1 at a concrete store and limit. -/
theorem claim_c1_get_recent_witness :
    get_recent demoStore "s" 1 =
      (lookupStore demoStore "s").drop ((lookupStore demoStore "s").length - (1 : Int).toNat) :=
  (claim_c1_get_recent demoStore "s" 1).1 (by decide)

/-! ## Claim C5 -/

/-- Claim C5: starting from a session with no stored turns, `get_all`
after the given sequence of `add_message` calls returns exactly one turn
per call, in call order, carrying the role and text of its call; and if
the supplied clock readings are non-decreasing, so are the stored
timestamps. -/
theorem claim_c5_add_get_all (st : Store) (sid : String)
    (calls : List (List Char × List Char × Nat)) (h0 : get_all st sid = []) :
    get_all (addAll st sid calls) sid =
      calls.map (fun c => (⟨c.1, c.2.1, c.2.2⟩ : Turn)) ∧
    (get_all (addAll st sid calls) sid).length = calls.length ∧
    (List.Chain' (· ≤ ·) (calls.map (fun c => c.2.2)) →
      List.Chain' (· ≤ ·) ((get_all (addAll st sid calls) sid).map Turn.timestamp)) := by
  have h := get_all_addAll st sid calls
  rw [h0, List.nil_append] at h
  refine ⟨h, by rw [h, List.length_map], ?_⟩
  intro hc
  rw [h, List.map_map]
  exact hc

/-- Witness for claim C5 at a concrete two-call sequence. -/
theorem claim_c5_add_get_all_witness :
    get_all (addAll [] "s" [("user".data, "Hi".data, 0), ("assistant".data, "Hello!".data, 1)]) "s" =
      [⟨"user".data, "Hi".data, 0⟩, ⟨"assistant".data, "Hello!".data, 1⟩] :=
  (claim_c5_add_get_all [] "s"
    [("user".data, "Hi".data, 0), ("assistant".data, "Hello!".data, 1)] rfl).1

/-! ## Claim C9 -/

/-- Claim C9: for distinct sessions `s ≠ t` (and a store with unique
keys, as a Python dict guarantees), `add_message` on `s` and `clear` on
`s` leave `get_all t` unchanged, and change the set of session ids only
by adding `s` (if absent) respectively removing `s`. -/
theorem claim_c9_frame (st : Store) (s t : String) (role text : List Char) (ts : Nat)
    (hst : s ≠ t) (hnd : (st.map Prod.fst).Nodup) :
    get_all (add_message st s role text ts) t = get_all st t ∧
    get_all (clear st s) t = get_all st t ∧
    (∀ x, x ∈ sessions (add_message st s role text ts) ↔ x ∈ sessions st ∨ x = s) ∧
    (∀ x, x ∈ sessions (clear st s) ↔ x ∈ sessions st ∧ x ≠ s) :=
  ⟨lookup_add_other st s t role text ts hst,
   lookup_clear_other st s t hst,
   fun x => mem_sessions_add st s role text ts x,
   fun x => mem_sessions_clear st s x hnd⟩

/-- Witness for claim C9 at a concrete store and distinct sessions. -/
theorem claim_c9_frame_witness :
    get_all (add_message demoStore "a" "user".data "yo".data 7) "s" = get_all demoStore "s" :=
  (claim_c9_frame demoStore "a" "s" "user".data "yo".data 7 (by decide) (by decide)).1

/-! ## Claim C3 -/

/-- Claim C3: with no API credential configured, the handler returns the
fixed missing-credential response (fixed text, HTML, Markdown and a
single `error` segment), its result does not depend on the external
model oracle at all (the external call is never made), and the final
store is exactly the store after the optional system-turn append — the
user's message is never stored. -/
theorem claim_c3_no_credentials (llm llm2 : List Char → Except (List Char) (List Char))
    (st : Store) (req : ChatRequest) (now : Nat) :
    chat false llm st req now = chat false llm2 st req now ∧
    (chat false llm st req now).1.response =
      "Server is missing GEMINI_API_KEY. Please set it in .env.".data ∧
    (chat false llm st req now).1.html =
      "<p><strong>Server is missing GEMINI_API_KEY.</strong> Please set it in .env.</p>".data ∧
    (chat false llm st req now).1.markdown =
      "**Server is missing GEMINI_API_KEY.** Please set it in .env.".data ∧
    (chat false llm st req now).1.segments =
      [⟨"error".data, "Server is missing GEMINI_API_KEY. Please set it in .env.".data⟩] ∧
    (chat false llm st req now).2 =
      applySystem st (resolveSession req.session_id now) req.system now :=
  ⟨rfl, rfl, rfl, rfl, rfl, rfl⟩

/-! ## Claim C6 -/

/-- Claim C6: for the session holding the system turn `"Be concise."`,
the user turn `"Hi"` and the assistant turn `"Hello!"`, the prompt for
new message `"How are you?"` with `memory_size = 6` is exactly the
expected block: system line, then `"User: Hi"` and
`"Assistant: Hello!"` in order, then `"User: How are you?"`, ending
with the line `"Assistant:"`. -/
theorem claim_c6_prompt_example :
    build_prompt_with_context demoStore6 (some "s") "How are you?".data 6 =
      ("System instructions:\nBe concise.\n\nConversation history (oldest → newest):\nUser: Hi\nAssistant: Hello!\n\nUser: How are you?\nAssistant:").data := by
  decide

/-! ## Claim C7 -/

/-- Claim C7: the input `"Line one.\n\nLine two\nstill two."` produces
exactly two paragraphs with HTML fragments `<p>Line one.</p>` and
`<p>Line two<br>still two.</p>`, and markdown equal to the input. -/
theorem claim_c7_formatter_example :
    (build_visual_payload "Line one.\n\nLine two\nstill two.".data).html =
        "<p>Line one.</p>\n<p>Line two<br>still two.</p>".data ∧
    (build_visual_payload "Line one.\n\nLine two\nstill two.".data).markdown =
        "Line one.\n\nLine two\nstill two.".data ∧
    (build_visual_payload "Line one.\n\nLine two\nstill two.".data).segments =
      [⟨"paragraph".data, "Line one.".data⟩,
       ⟨"paragraph".data, "Line two\nstill two.".data⟩] := by
  refine ⟨by decide, by decide, by decide⟩

/-! ## Prompt-builder lemmas and claim C2 -/

theorem historyLines_eq (l : List Turn) :
    historyLines l = (l.filter (fun it => !(it.role == "system".data))).map
      (fun it => pyCapitalize it.role ++ ": ".data ++ pyStrip it.text) := by
  induction l with
  | nil => simp [historyLines]
  | cons it rest ih =>
      by_cases h : it.role = "system".data
      · simp [historyLines, h, ih]
      · simp [historyLines, h, ih]

theorem filter_not_system (l : List Turn)
    (hr : ∀ it ∈ l,
      it.role = "system".data ∨ it.role = "user".data ∨ it.role = "assistant".data) :
    l.filter (fun it => !(it.role == "system".data)) =
      l.filter (fun it => it.role == "user".data || it.role == "assistant".data) := by
  apply List.filter_congr
  intro it hmem
  rcases hr it hmem with h | h | h <;> rw [h] <;> decide

theorem get_recent_subset (st : Store) (sid : String) (k : Int) :
    ∀ it ∈ get_recent st sid k, it ∈ lookupStore st sid := by
  intro it hmem
  rw [get_recent_eq] at hmem
  split_ifs at hmem
  · exact hmem
  · exact List.drop_subset _ _ hmem
  · exact List.drop_subset _ _ hmem

theorem get_recent_ne_nil (st : Store) (sid : String) (k : Int)
    (hk : 0 < k) (hne : lookupStore st sid ≠ []) : get_recent st sid k ≠ [] := by
  rw [get_recent_eq, if_neg (by omega), if_pos hk]
  intro h
  rw [List.drop_eq_nil_iff] at h
  have hpos : 0 < (lookupStore st sid).length := List.length_pos.mpr hne
  omega

/-- Claim C2: for any store state in which session `sid` exists (a
session reachable through `add_message` always holds at least one turn,
with one of the three expected roles) and any positive `memory_size`,
the prompt's conversation-history section consists of the header line,
then one `"<Role>: <stripped text>"` line for exactly those turns of
the `get_recent` window whose role is `user` or `assistant` (system
turns inside the window are skipped), then the blank line — the header
and blank line are emitted even when the filtered list is empty. -/
theorem claim_c2_history_section (st : Store) (sid : String) (msg : List Char) (m : Int)
    (hm : 0 < m) (hsid : sid ≠ "") (hne : lookupStore st sid ≠ [])
    (hr : ∀ it ∈ lookupStore st sid,
      it.role = "system".data ∨ it.role = "user".data ∨ it.role = "assistant".data) :
    ∃ pre, promptParts st (some sid) msg m =
      pre ++
      ("Conversation history (oldest → newest):".data ::
        ((((get_recent st sid m).filter
            (fun it => it.role == "user".data || it.role == "assistant".data)).map
          (fun it => pyCapitalize it.role ++ ": ".data ++ pyStrip it.text)) ++ [[]])) ++
      ["User: ".data ++ pyStrip msg, "Assistant:".data] := by
  have hrec : get_recent st sid m ≠ [] := get_recent_ne_nil st sid m hm hne
  have hlines : historyLines (get_recent st sid m) =
      ((get_recent st sid m).filter
        (fun it => it.role == "user".data || it.role == "assistant".data)).map
        (fun it => pyCapitalize it.role ++ ": ".data ++ pyStrip it.text) := by
    rw [historyLines_eq, filter_not_system]
    intro it hmem
    exact hr it (get_recent_subset st sid m it hmem)
  refine ⟨(if ((get_all st sid).filter (fun it => it.role == "system".data)).isEmpty then []
    else "System instructions:".data ::
      (((get_all st sid).filter (fun it => it.role == "system".data)).map
        (fun it => pyStrip it.text) ++ [[]])), ?_⟩
  simp only [promptParts, if_neg hsid]
  rw [if_neg (fun h => hrec (List.isEmpty_iff.mp h))]
  rw [hlines]

/-- Witness for claim C2 at a concrete store. -/
theorem claim_c2_history_section_witness :
    ∃ pre, promptParts demoStore6 (some "s") "Yo".data 6 =
      pre ++
      ("Conversation history (oldest → newest):".data ::
        ((((get_recent demoStore6 "s" 6).filter
            (fun it => it.role == "user".data || it.role == "assistant".data)).map
          (fun it => pyCapitalize it.role ++ ": ".data ++ pyStrip it.text)) ++ [[]])) ++
      ["User: ".data ++ pyStrip "Yo".data, "Assistant:".data] :=
  claim_c2_history_section demoStore6 "s" "Yo".data 6 (by decide) (by decide) (by decide)
    (by decide)

/-! ## Substring-tracking toolkit

Small helper lemmas about the contiguous-substring relation, used to
follow a marked substring (such as `"<script>"`) through the formatter
pipeline. -/

theorem pre_to_inf {α : Type*} {l a : List α} (h : l <+: a) : l <:+: a := by
  obtain ⟨t, rfl⟩ := h
  exact ⟨[], t, by simp⟩

theorem inf_of_app_right {α : Type*} {l b : List α} (a : List α) (h : l <:+: b) :
    l <:+: a ++ b := by
  obtain ⟨u, v, rfl⟩ := h
  exact ⟨a ++ u, v, by simp⟩

theorem inf_of_app_left {α : Type*} {l a : List α} (b : List α) (h : l <:+: a) :
    l <:+: a ++ b := by
  obtain ⟨u, v, rfl⟩ := h
  exact ⟨u, v ++ b, by simp⟩

theorem nil_inf {α : Type*} (a : List α) : ([] : List α) <:+: a := ⟨[], a, by simp⟩

/-- A prefix that avoids the marker `c` stays inside the part before
the marker. -/
theorem pre_avoid {α : Type*} {c : α} :
    ∀ (a : List α) (sub : List α), c ∉ sub → ∀ b, sub <+: a ++ c :: b → sub <+: a := by
  intro a
  induction a with
  | nil =>
      intro sub hc b h
      cases sub with
      | nil => exact List.nil_prefix
      | cons x s' =>
          rw [List.nil_append, List.cons_prefix_cons] at h
          exact absurd (h.1 ▸ List.mem_cons_self x s') hc
  | cons y a' ih =>
      intro sub hc b h
      cases sub with
      | nil => exact List.nil_prefix
      | cons x s' =>
          rw [List.cons_append, List.cons_prefix_cons] at h
          obtain ⟨rfl, h2⟩ := h
          exact List.cons_prefix_cons.mpr
            ⟨rfl, ih s' (fun hm => hc (List.mem_cons_of_mem _ hm)) b h2⟩

/-- A substring that avoids the single separator `c` lies entirely on
one side of it. -/
theorem inf_avoid_single {α : Type*} {c : α} :
    ∀ (a : List α) {sub : List α}, c ∉ sub →
      ∀ b, sub <:+: a ++ c :: b → sub <:+: a ∨ sub <:+: b := by
  intro a
  induction a with
  | nil =>
      intro sub hc b h
      rw [List.nil_append] at h
      rcases List.infix_cons_iff.mp h with hp | hi
      · have h0 : sub <+: ([] : List α) ++ c :: b := by simpa using hp
        have := pre_avoid [] sub hc b h0
        exact Or.inl (pre_to_inf this)
      · exact Or.inr hi
  | cons y a' ih =>
      intro sub hc b h
      rw [List.cons_append] at h
      rcases List.infix_cons_iff.mp h with hp | hi
      · have h0 : sub <+: (y :: a') ++ c :: b := by simpa using hp
        exact Or.inl (pre_to_inf (pre_avoid (y :: a') sub hc b h0))
      · rcases ih hc b hi with h1 | h2
        · exact Or.inl (inf_of_app_right [y] h1)
        · exact Or.inr h2

/-- A substring that avoids every character of a nonempty separator
block lies entirely on one side of it. -/
theorem inf_avoid_sep {α : Type*} :
    ∀ (s : List α) (a b : List α) {sub : List α}, (∀ c ∈ s, c ∉ sub) → s ≠ [] →
      sub <:+: a ++ s ++ b → sub <:+: a ∨ sub <:+: b := by
  intro s
  induction s with
  | nil => intro a b sub _ hne; exact absurd rfl hne
  | cons c s' ih =>
      intro a b sub hs _ h
      have h' : sub <:+: a ++ c :: (s' ++ b) := by simpa using h
      rcases inf_avoid_single a (hs c (by simp)) _ h' with h1 | h2
      · exact Or.inl h1
      · by_cases hs' : s' = []
        · subst hs'; exact Or.inr (by simpa using h2)
        · have h2' : sub <:+: ([] : List α) ++ s' ++ b := by simpa using h2
          rcases ih [] b (fun d hd => hs d (by simp [hd])) hs' h2' with h3 | h3
          · obtain ⟨u, v, he⟩ := h3
            have hsub : sub = [] := by
              simp only [List.append_eq_nil] at he
              exact he.1.2
            exact Or.inl (hsub ▸ nil_inf a)
          · exact Or.inr h3

/-! ## Newline normalisation preserves marked substrings -/

theorem norm_cons_not_cr {c : Char} (hc : c ≠ '\r') (l : List Char) :
    normNewlines (c :: l) = c :: normNewlines l := by
  cases l with
  | nil => simp [normNewlines, hc]
  | cons d r => simp [normNewlines, hc]

theorem norm_no_cr_append (s : List Char) (hs : '\r' ∉ s) (b : List Char) :
    normNewlines (s ++ b) = s ++ normNewlines b := by
  induction s with
  | nil => rfl
  | cons c s' ih =>
      have hc : c ≠ '\r' := fun h => hs (by simp [h])
      rw [List.cons_append, norm_cons_not_cr hc,
        ih (fun hm => hs (List.mem_cons_of_mem _ hm))]
      rfl

theorem norm_prefix_exists :
    ∀ (a rest : List Char), rest.head? ≠ some '\n' →
      ∃ a', normNewlines (a ++ rest) = a' ++ normNewlines rest := by
  suffices H : ∀ (n : Nat) (a : List Char), a.length ≤ n → ∀ rest, rest.head? ≠ some '\n' →
      ∃ a', normNewlines (a ++ rest) = a' ++ normNewlines rest by
    intro a rest h
    exact H a.length a le_rfl rest h
  intro n
  induction n with
  | zero =>
      intro a ha rest _
      have : a = [] := List.length_eq_zero.mp (Nat.le_zero.mp ha)
      subst this
      exact ⟨[], rfl⟩
  | succ n ihn =>
      intro a ha rest hrest
      cases a with
      | nil => exact ⟨[], rfl⟩
      | cons c a' =>
          by_cases hc : c = '\r'
          · subst hc
            cases a' with
            | nil =>
                cases rest with
                | nil => exact ⟨['\n'], by simp [normNewlines]⟩
                | cons d r' =>
                    have hd : d ≠ '\n' := by simpa using hrest
                    refine ⟨['\n'], ?_⟩
                    show normNewlines ('\r' :: d :: r') = '\n' :: normNewlines (d :: r')
                    simp [normNewlines, hd]
            | cons d a'' =>
                by_cases hd : d = '\n'
                · subst hd
                  obtain ⟨a2, h2⟩ := ihn a'' (by simp at ha; omega) rest hrest
                  refine ⟨'\n' :: a2, ?_⟩
                  show normNewlines ('\r' :: '\n' :: (a'' ++ rest)) = ('\n' :: a2) ++ normNewlines rest
                  rw [show normNewlines ('\r' :: '\n' :: (a'' ++ rest)) =
                    '\n' :: normNewlines (a'' ++ rest) from rfl, h2]
                  rfl
                · obtain ⟨a2, h2⟩ := ihn (d :: a'') (by simp at ha ⊢; omega) rest hrest
                  refine ⟨'\n' :: a2, ?_⟩
                  show normNewlines ('\r' :: d :: (a'' ++ rest)) = ('\n' :: a2) ++ normNewlines rest
                  have he : normNewlines ('\r' :: d :: (a'' ++ rest)) =
                      '\n' :: normNewlines (d :: (a'' ++ rest)) := by
                    simp [normNewlines, hd]
                  rw [he]
                  rw [show (d :: (a'' ++ rest)) = (d :: a'') ++ rest from rfl, h2]
                  rfl
          · obtain ⟨a2, h2⟩ := ihn a' (by simp at ha; omega) rest hrest
            refine ⟨c :: a2, ?_⟩
            rw [List.cons_append, norm_cons_not_cr hc, h2]
            rfl

/-- A marked substring without carriage returns and newlines survives
newline normalisation. -/
theorem inf_norm {sub l : List Char} (hr : '\r' ∉ sub) (hn : '\n' ∉ sub)
    (h : sub <:+: l) : sub <:+: normNewlines l := by
  obtain ⟨u, v, rfl⟩ := h
  cases sub with
  | nil => exact nil_inf _
  | cons c s' =>
      have hhead : (((c :: s') ++ v)).head? ≠ some '\n' := by
        intro hcontra
        simp at hcontra
        exact hn (by simp [hcontra])
      obtain ⟨u', hu⟩ := norm_prefix_exists u ((c :: s') ++ v) hhead
      rw [show u ++ (c :: s') ++ v = u ++ ((c :: s') ++ v) by simp] at *
      rw [hu, norm_no_cr_append (c :: s') hr v]
      exact ⟨u', normNewlines v, by simp⟩

/-! ## Split/join reconstruction -/

theorem splitOnNl_cons {c : Char} {rest : List Char} (h : ¬ c = '\n') :
    splitOnNl (c :: rest) = match splitOnNl rest with
      | piece :: pieces => (c :: piece) :: pieces
      | [] => [[c]] := by
  rw [splitOnNl.eq_def]
  split
  · rename_i heq; cases heq
  · rename_i r heq
    injection heq with h1 h2
    exact (h h1).elim
  · rename_i hne heq
    injection heq with h1 h2
    subst h1; subst h2
    rfl

theorem splitOnNl_ne_nil (l : List Char) : splitOnNl l ≠ [] := by
  induction l using splitOnNl.induct
  case case1 => simp [splitOnNl]
  case case2 => simp [splitOnNl]
  case case3 c rest hg piece pieces hscrut ih =>
    rw [splitOnNl_cons hg, hscrut]
    simp
  case case4 c rest hg hscrut ih =>
    rw [splitOnNl_cons hg, hscrut]
    simp

theorem splitOnNlNl_cons {c : Char} {rest : List Char}
    (h : ∀ r, c = '\n' → rest = '\n' :: r → False) :
    splitOnNlNl (c :: rest) = match splitOnNlNl rest with
      | piece :: pieces => (c :: piece) :: pieces
      | [] => [[c]] := by
  rw [splitOnNlNl.eq_def]
  split
  · rename_i heq; cases heq
  · rename_i r heq
    injection heq with h1 h2
    exact (h r h1 h2).elim
  · rename_i hne heq
    injection heq with h1 h2
    subst h1; subst h2
    rfl

theorem splitOnNlNl_ne_nil (l : List Char) : splitOnNlNl l ≠ [] := by
  induction l using splitOnNlNl.induct
  case case1 => simp [splitOnNlNl]
  case case2 => simp [splitOnNlNl]
  case case3 c rest hg piece pieces hscrut ih =>
    rw [splitOnNlNl_cons hg, hscrut]
    simp
  case case4 c rest hg hscrut ih =>
    rw [splitOnNlNl_cons hg, hscrut]
    simp

/-- Joining the single-newline split with `"\n"` reproduces the input. -/
theorem join_splitOnNl (l : List Char) : pyJoin ('\n' :: []) (splitOnNl l) = l := by
  induction l using splitOnNl.induct
  case case1 => rfl
  case case2 rest ih =>
    rw [show splitOnNl ('\n' :: rest) = [] :: splitOnNl rest from rfl]
    cases hsp : splitOnNl rest with
    | nil => exact absurd hsp (splitOnNl_ne_nil rest)
    | cons p ps =>
        rw [hsp] at ih
        rw [show pyJoin ('\n' :: []) ([] :: p :: ps) =
          [] ++ ('\n' :: []) ++ pyJoin ('\n' :: []) (p :: ps) from rfl, ih]
        rfl
  case case3 c rest hg piece pieces hscrut ih =>
    rw [splitOnNl_cons hg, hscrut]
    rw [hscrut] at ih
    cases pieces with
    | nil =>
        simp only [pyJoin] at ih ⊢
        rw [ih]
    | cons q qs =>
        simp only [pyJoin, List.cons_append, List.append_assoc] at ih ⊢
        rw [ih]
  case case4 c rest hg hscrut ih =>
    exact absurd hscrut (splitOnNl_ne_nil rest)

/-- Joining the blank-line split with `"\n\n"` reproduces the input. -/
theorem join_splitOnNlNl (l : List Char) :
    pyJoin ('\n' :: '\n' :: []) (splitOnNlNl l) = l := by
  induction l using splitOnNlNl.induct
  case case1 => rfl
  case case2 rest ih =>
    rw [show splitOnNlNl ('\n' :: '\n' :: rest) = [] :: splitOnNlNl rest from rfl]
    cases hsp : splitOnNlNl rest with
    | nil => exact absurd hsp (splitOnNlNl_ne_nil rest)
    | cons p ps =>
        rw [hsp] at ih
        rw [show pyJoin ('\n' :: '\n' :: []) ([] :: p :: ps) =
          [] ++ ('\n' :: '\n' :: []) ++ pyJoin ('\n' :: '\n' :: []) (p :: ps) from rfl, ih]
        rfl
  case case3 c rest hg piece pieces hscrut ih =>
    rw [splitOnNlNl_cons hg, hscrut]
    rw [hscrut] at ih
    cases pieces with
    | nil =>
        simp only [pyJoin] at ih ⊢
        rw [ih]
    | cons q qs =>
        simp only [pyJoin, List.cons_append, List.append_assoc] at ih ⊢
        rw [ih]
  case case4 c rest hg hscrut ih =>
    exact absurd hscrut (splitOnNlNl_ne_nil rest)

/-- A substring avoiding the separator characters of a `pyJoin` lies
inside one of the joined pieces. -/
theorem inf_join_piece {sub : List Char} (sep : List Char)
    (hsep : ∀ c ∈ sep, c ∉ sub) (hsepne : sep ≠ []) :
    ∀ pieces : List (List Char), pieces ≠ [] →
      sub <:+: pyJoin sep pieces → ∃ p ∈ pieces, sub <:+: p := by
  intro pieces
  induction pieces with
  | nil => intro h; exact absurd rfl h
  | cons p ps ih =>
      intro _ h
      cases ps with
      | nil => exact ⟨p, by simp, by simpa [pyJoin] using h⟩
      | cons q qs =>
          rw [show pyJoin sep (p :: q :: qs) = p ++ sep ++ pyJoin sep (q :: qs) from rfl] at h
          rcases inf_avoid_sep sep p (pyJoin sep (q :: qs)) hsep hsepne h with h1 | h2
          · exact ⟨p, by simp, h1⟩
          · obtain ⟨r, hr, hsub⟩ := ih (by simp) h2
            exact ⟨r, by simp [hr], hsub⟩

/-! ## Stripping preserves marked substrings -/

theorem rev_inf {α : Type*} {l m : List α} (h : l <:+: m) : l.reverse <:+: m.reverse := by
  obtain ⟨u, v, rfl⟩ := h
  exact ⟨v.reverse, u.reverse, by simp⟩

theorem inf_dropWhile {sub l : List Char} {c : Char}
    (hhead : sub.head? = some c) (hc : ¬ pyIsSpace c = true)
    (h : sub <:+: l) : sub <:+: l.dropWhile pyIsSpace := by
  induction l with
  | nil =>
      obtain ⟨u, v, he⟩ := h
      simp only [List.append_eq_nil] at he
      rw [he.1.2] at hhead
      cases hhead
  | cons d l' ih =>
      rw [List.dropWhile_cons]
      by_cases hd : pyIsSpace d = true
      · rw [if_pos hd]
        apply ih
        rcases List.infix_cons_iff.mp h with hp | hi
        · cases sub with
          | nil => cases hhead
          | cons x s' =>
              rw [List.cons_prefix_cons] at hp
              obtain ⟨rfl, _⟩ := hp
              simp only [List.head?_cons, Option.some.injEq] at hhead
              rw [hhead] at hd
              exact (hc hd).elim
        · exact hi
      · rw [if_neg hd]
        exact h

theorem inf_pyStrip {sub p : List Char} {c d : Char}
    (hhead : sub.head? = some c) (hc : ¬ pyIsSpace c = true)
    (hlast : sub.getLast? = some d) (hd : ¬ pyIsSpace d = true)
    (h : sub <:+: p) : sub <:+: pyStrip p := by
  unfold pyStrip
  have h1 : sub <:+: p.dropWhile pyIsSpace := inf_dropWhile hhead hc h
  have h2 : sub.reverse <:+: (p.dropWhile pyIsSpace).reverse := rev_inf h1
  have h3 : sub.reverse.head? = some d := by rw [List.head?_reverse]; exact hlast
  have h4 := inf_dropWhile h3 hd h2
  have h5 := rev_inf h4
  simpa using h5

/-! ## Character-wise expansion preserves marked substrings -/

theorem inf_flatMap (f : Char → List Char) {sub l : List Char} (h : sub <:+: l) :
    sub.flatMap f <:+: l.flatMap f := by
  obtain ⟨u, v, rfl⟩ := h
  exact ⟨u.flatMap f, v.flatMap f, by simp⟩

/-! ## Visual-payload accessors -/

theorem bvp_segments (t : List Char) :
    (build_visual_payload t).segments =
      (vfParagraphs t).map (fun p => (⟨"paragraph".data, p⟩ : Segment)) := rfl

theorem bvp_html (t : List Char) :
    (build_visual_payload t).html =
      (if ((vfParagraphs t).map vfPart).isEmpty then "<p>(empty)</p>".data
       else pyJoin ('\n' :: []) ((vfParagraphs t).map vfPart)) := rfl

theorem bvp_markdown (t : List Char) :
    (build_visual_payload t).markdown =
      (if (vfParagraphs t).isEmpty then []
       else pyJoin ('\n' :: '\n' :: []) (vfParagraphs t)) := rfl

/-- A marked substring free of carriage returns, newlines and
whitespace at its two ends survives into one of the formatter's
stripped paragraphs. -/
theorem inf_vfParagraphs {sub t : List Char} {c d : Char}
    (hr : '\r' ∉ sub) (hn : '\n' ∉ sub)
    (hhead : sub.head? = some c) (hc : ¬ pyIsSpace c = true)
    (hlast : sub.getLast? = some d) (hd : ¬ pyIsSpace d = true)
    (h : sub <:+: t) :
    ∃ p ∈ vfParagraphs t, sub <:+: p := by
  have h1 : sub <:+: normNewlines t := inf_norm hr hn h
  unfold vfParagraphs
  by_cases hbl : ('\n' :: '\n' :: []) <:+: normNewlines t
  · rw [if_pos hbl]
    have hj : sub <:+: pyJoin ('\n' :: '\n' :: []) (splitOnNlNl (normNewlines t)) := by
      rw [join_splitOnNlNl]; exact h1
    obtain ⟨piece, hmem, hsubp⟩ := inf_join_piece ('\n' :: '\n' :: [])
      (by intro x hx; simp at hx; subst hx; exact hn) (by simp)
      (splitOnNlNl (normNewlines t)) (splitOnNlNl_ne_nil _) hj
    have hs : sub <:+: pyStrip piece := inf_pyStrip hhead hc hlast hd hsubp
    refine ⟨pyStrip piece, ?_, hs⟩
    apply List.mem_filter.mpr
    refine ⟨List.mem_map_of_mem _ hmem, ?_⟩
    cases hps : pyStrip piece with
    | nil =>
        rw [hps] at hs
        obtain ⟨u, v, he⟩ := hs
        simp only [List.append_eq_nil] at he
        rw [he.1.2] at hhead
        cases hhead
    | cons _ _ => simp
  · rw [if_neg hbl]
    have hj : sub <:+: pyJoin ('\n' :: []) (splitOnNl (normNewlines t)) := by
      rw [join_splitOnNl]; exact h1
    obtain ⟨piece, hmem, hsubp⟩ := inf_join_piece ('\n' :: [])
      (by intro x hx; simp at hx; subst hx; exact hn) (by simp)
      (splitOnNl (normNewlines t)) (splitOnNl_ne_nil _) hj
    have hs : sub <:+: pyStrip piece := inf_pyStrip hhead hc hlast hd hsubp
    refine ⟨pyStrip piece, ?_, hs⟩
    apply List.mem_filter.mpr
    refine ⟨List.mem_map_of_mem _ hmem, ?_⟩
    cases hps : pyStrip piece with
    | nil =>
        rw [hps] at hs
        obtain ⟨u, v, he⟩ := hs
        simp only [List.append_eq_nil] at he
        rw [he.1.2] at hhead
        cases hhead
    | cons _ _ => simp

/-! ## Pair counting -/

theorem pairCount_zero_of_no_x {x y : Char} : ∀ l : List Char, x ∉ l → pairCount x y l = 0 := by
  intro l
  induction l with
  | nil => intro _; simp [pairCount_cons2]
  | cons c l' ih =>
      intro hx
      cases l' with
      | nil => simp [pairCount_cons2]
      | cons d l'' =>
          have hc : ¬ (c = x ∧ d = y) := by
            rintro ⟨rfl, _⟩
            exact hx (by simp)
          simp only [pairCount_cons2, if_neg hc, Nat.zero_add]
          exact ih (fun hm => hx (List.mem_cons_of_mem _ hm))

theorem pairCount_append {x y : Char} :
    ∀ (a b : List Char), a.getLast? ≠ some x →
      pairCount x y (a ++ b) = pairCount x y a + pairCount x y b := by
  intro a
  induction a with
  | nil => intro b _; simp [pairCount_cons2]
  | cons c a' ih =>
      intro b hlast
      cases a' with
      | nil =>
          have hc : c ≠ x := by simpa using hlast
          cases b with
          | nil => simp [pairCount_cons2]
          | cons d b' =>
              have hnc : ¬ (c = x ∧ d = y) := fun hh => hc hh.1
              show pairCount x y (c :: d :: b') =
                pairCount x y (c :: []) + pairCount x y (d :: b')
              rw [pairCount_cons2, if_neg hnc, pairCount_one]
      | cons e a'' =>
          have hlast' : (e :: a'').getLast? ≠ some x := by
            rwa [List.getLast?_cons_cons] at hlast
          have ih' := ih b hlast'
          simp only [List.cons_append] at ih' ⊢
          simp only [pairCount_cons2]
          omega

theorem pairCount_zero_iff {x y : Char} :
    ∀ l : List Char, pairCount x y l = 0 ↔ ¬ (x :: y :: []) <:+: l := by
  intro l
  induction l with
  | nil =>
      constructor
      · intro _ hinf
        obtain ⟨u, v, he⟩ := hinf
        simp at he
      · intro _; simp [pairCount_cons2]
  | cons c l' ih =>
      cases l' with
      | nil =>
          constructor
          · intro _ hinf
            obtain ⟨u, v, he⟩ := hinf
            have := congrArg List.length he
            simp at this
            omega
          · intro _; simp [pairCount_cons2]
      | cons d l'' =>
          simp only [pairCount_cons2]
          constructor
          · intro h0 hinf
            have hz : (if c = x ∧ d = y then 1 else 0) = 0 ∧
                pairCount x y (d :: l'') = 0 := by omega
            rcases List.infix_cons_iff.mp hinf with hp | hi
            · rw [List.cons_prefix_cons] at hp
              obtain ⟨hx1, hp2⟩ := hp
              rw [List.cons_prefix_cons] at hp2
              obtain ⟨hy1, _⟩ := hp2
              rw [if_pos ⟨hx1.symm, hy1.symm⟩] at hz
              exact absurd hz.1 (by omega)
            · exact (ih.mp hz.2) hi
          · intro hni
            have h1 : ¬ (x :: y :: []) <:+: d :: l'' :=
              fun hi => hni (inf_of_app_right [c] hi)
            have h2 := ih.mpr h1
            have h3 : ¬ (c = x ∧ d = y) := by
              rintro ⟨rfl, rfl⟩
              exact hni (pre_to_inf (List.cons_prefix_cons.mpr
                ⟨rfl, List.cons_prefix_cons.mpr ⟨rfl, List.nil_prefix⟩⟩))
            simp [h3, h2]

/-! ## Character-block structure of escaped paragraph bodies -/

/-- The image of one source character after escaping and `<br>`
substitution. -/
def escBr (c : Char) : List Char := (escapeChar c).flatMap brChar

theorem safe_eq_flatMap (p : List Char) :
    (htmlEscape p).flatMap brChar = p.flatMap escBr := by
  unfold htmlEscape escBr
  rw [List.flatMap_assoc]

theorem escBr_eq (c : Char) :
    escBr c = (if c = '&' then "&amp;".data
      else if c = '<' then "&lt;".data
      else if c = '>' then "&gt;".data
      else if c = '"' then "&quot;".data
      else if c = '\'' then "&#x27;".data
      else if c = '\n' then "<br>".data
      else [c]) := by
  unfold escBr escapeChar
  split_ifs with h1 h2 h3 h4 h5 h6 <;>
    first
      | decide
      | (subst h6; decide)
      | simp [brChar, h6]

theorem escBr_last (c : Char) : (escBr c).getLast? ≠ some '<' := by
  rw [escBr_eq]
  split_ifs with h1 h2 h3 h4 h5 h6 <;>
    first
      | decide
      | simp [h2]

theorem escBr_pair (c : Char) (y : Char) (hy : y ≠ 'b') :
    pairCount '<' y (escBr c) = 0 := by
  rw [escBr_eq]
  split_ifs with h1 h2 h3 h4 h5 h6
  · exact pairCount_zero_of_no_x _ (by decide)
  · exact pairCount_zero_of_no_x _ (by decide)
  · exact pairCount_zero_of_no_x _ (by decide)
  · exact pairCount_zero_of_no_x _ (by decide)
  · exact pairCount_zero_of_no_x _ (by decide)
  · show pairCount '<' y ('<' :: 'b' :: 'r' :: '>' :: []) = 0
    simp [pairCount_cons2, eq_false (fun hh => hy hh.symm : ¬ ('b' = y))]
  · simp [pairCount_cons2]

theorem flatMap_escBr_block (y : Char) (hy : y ≠ 'b') :
    ∀ q : List Char, pairCount '<' y (q.flatMap escBr) = 0 ∧
      (q.flatMap escBr).getLast? ≠ some '<' := by
  intro q
  induction q with
  | nil => exact ⟨by simp [pairCount_cons2], by simp⟩
  | cons c q' ih =>
      rw [List.flatMap_cons]
      constructor
      · rw [pairCount_append _ _ (escBr_last c), escBr_pair c y hy, ih.1]
      · cases hq : q'.flatMap escBr with
        | nil => simpa using escBr_last c
        | cons z zs =>
            rw [List.getLast?_append_of_ne_nil _ (by simp [hq])]
            rw [hq] at ih
            exact ih.2

/-! ## Tag counting in a whole rendered part and joined document -/

theorem vfPart_last (p : List Char) : (vfPart p).getLast? ≠ some '<' := by
  unfold vfPart
  rw [List.getLast?_append_of_ne_nil _ (by simp)]
  decide

theorem escaped_body_last (p : List Char) :
    ("<p>".data ++ p.flatMap escBr).getLast? ≠ some '<' := by
  cases hq : p.flatMap escBr with
  | nil => decide
  | cons z zs =>
      rw [List.getLast?_append_of_ne_nil _ (by simp)]
      rw [← hq]
      exact (flatMap_escBr_block 'p' (by decide) p).2

theorem vfPart_pair_p (p : List Char) : pairCount '<' 'p' (vfPart p) = 1 := by
  unfold vfPart
  rw [safe_eq_flatMap]
  rw [pairCount_append ("<p>".data ++ p.flatMap escBr) _ (escaped_body_last p)]
  rw [pairCount_append "<p>".data _ (by decide)]
  rw [(flatMap_escBr_block 'p' (by decide) p).1]
  decide

theorem vfPart_pair_s (p : List Char) : pairCount '<' 's' (vfPart p) = 0 := by
  unfold vfPart
  rw [safe_eq_flatMap]
  rw [pairCount_append ("<p>".data ++ p.flatMap escBr) _ (escaped_body_last p)]
  rw [pairCount_append "<p>".data _ (by decide)]
  rw [(flatMap_escBr_block 's' (by decide) p).1]
  decide

theorem pyJoin_pair (y : Char) :
    ∀ parts : List (List Char), (∀ q ∈ parts, q.getLast? ≠ some '<') →
      pairCount '<' y (pyJoin ('\n' :: []) parts) =
        (parts.map (pairCount '<' y)).sum := by
  intro parts
  induction parts with
  | nil => intro _; simp [pyJoin, pairCount]
  | cons p ps ih =>
      intro hq
      cases ps with
      | nil => simp [pyJoin]
      | cons r rs =>
          rw [show pyJoin ('\n' :: []) (p :: r :: rs) =
            p ++ ('\n' :: []) ++ pyJoin ('\n' :: []) (r :: rs) from rfl]
          rw [pairCount_append (p ++ ('\n' :: [])) _
            (by rw [List.getLast?_append_of_ne_nil _ (by simp)]; decide)]
          rw [pairCount_append p _ (hq p (by simp))]
          rw [ih (fun q hm => hq q (by simp [hm]))]
          simp [pairCount_cons2]

/-! ## Document-level lemmas -/

theorem inf_trans {α : Type*} {a b c : List α} (h1 : a <:+: b) (h2 : b <:+: c) :
    a <:+: c := by
  obtain ⟨u1, v1, rfl⟩ := h1
  obtain ⟨u2, v2, rfl⟩ := h2
  exact ⟨u2 ++ u1, v1 ++ v2, by simp⟩

theorem inf_mem_pyJoin (sep : List Char) :
    ∀ (parts : List (List Char)) (p : List Char), p ∈ parts → p <:+: pyJoin sep parts := by
  intro parts
  induction parts with
  | nil => intro p hp; cases hp
  | cons q qs ih =>
      intro p hp
      cases qs with
      | nil =>
          rw [List.mem_singleton] at hp
          subst hp
          exact (show p <:+: p from ⟨[], [], by simp⟩)
      | cons r rs =>
          rcases List.mem_cons.mp hp with rfl | hm
          · refine pre_to_inf ⟨sep ++ pyJoin sep (r :: rs), ?_⟩
            rw [show pyJoin sep (p :: r :: rs) =
              p ++ sep ++ pyJoin sep (r :: rs) from rfl]
            simp
          · exact inf_of_app_right (q ++ sep) (ih p hm)

theorem sum_map_one (L : List (List Char)) : (L.map (fun _ => (1 : Nat))).sum = L.length := by
  induction L with
  | nil => rfl
  | cons a as ih => simp [ih, Nat.add_comm]

theorem sum_map_zero (L : List (List Char)) : (L.map (fun _ => (0 : Nat))).sum = 0 := by
  induction L with
  | nil => rfl
  | cons a as ih => simp [ih]

/-- In the joined HTML document, the paragraph-tag opener occurs once
per paragraph. -/
theorem html_pair_p {t : List Char} (hne : vfParagraphs t ≠ []) :
    pairCount '<' 'p' (build_visual_payload t).html = (vfParagraphs t).length := by
  rw [bvp_html, if_neg (by simp [List.isEmpty_iff, hne])]
  rw [pyJoin_pair 'p' _ (by
    intro q hm
    obtain ⟨p, _, rfl⟩ := List.mem_map.mp hm
    exact vfPart_last p)]
  rw [List.map_map]
  have hcongr : List.map (pairCount '<' 'p' ∘ vfPart) (vfParagraphs t) =
      List.map (fun _ => (1 : Nat)) (vfParagraphs t) :=
    List.map_congr_left (fun p _ => vfPart_pair_p p)
  rw [hcongr]
  exact sum_map_one _

/-- The generated HTML never contains `'<'` immediately followed by
`'s'`: escaping leaves `'<'` only inside `<p>`, `</p>` and `<br>`. -/
theorem html_pair_s (t : List Char) :
    pairCount '<' 's' (build_visual_payload t).html = 0 := by
  rw [bvp_html]
  split_ifs with h
  · decide
  · rw [pyJoin_pair 's' _ (by
      intro q hm
      obtain ⟨p, _, rfl⟩ := List.mem_map.mp hm
      exact vfPart_last p)]
    rw [List.map_map]
    have hcongr : List.map (pairCount '<' 's' ∘ vfPart) (vfParagraphs t) =
        List.map (fun _ => (0 : Nat)) (vfParagraphs t) :=
      List.map_congr_left (fun p _ => vfPart_pair_s p)
    rw [hcongr]
    exact sum_map_zero _

theorem html_no_script (t : List Char) :
    ¬ "<script>".data <:+: (build_visual_payload t).html := by
  intro h
  have h2 : ('<' :: 's' :: []) <:+: (build_visual_payload t).html :=
    inf_trans (pre_to_inf (by decide : ('<' :: 's' :: []) <+: "<script>".data)) h
  exact (pairCount_zero_iff _).mp (html_pair_s t) h2

/-! ## Idempotence of stripping -/

theorem dropWhile_dropWhile (p : Char → Bool) : ∀ l : List Char,
    (l.dropWhile p).dropWhile p = l.dropWhile p := by
  intro l
  induction l with
  | nil => rfl
  | cons c l' ih =>
      rw [List.dropWhile_cons]
      split_ifs with h
      · exact ih
      · rw [List.dropWhile_cons, if_neg h]

theorem dropWhile_head_not (p : Char → Bool) :
    ∀ (l : List Char) (c : Char), (l.dropWhile p).head? = some c → p c = false := by
  intro l
  induction l with
  | nil => intro c h; cases h
  | cons d l' ih =>
      intro c h
      rw [List.dropWhile_cons] at h
      split_ifs at h with hd
      · exact ih c h
      · simp only [List.head?_cons, Option.some.injEq] at h
        subst h
        exact Bool.eq_false_iff.mpr hd

theorem dropWhile_self_of_head (p : Char → Bool) (l : List Char)
    (h : ∀ c, l.head? = some c → p c = false) : l.dropWhile p = l := by
  cases l with
  | nil => rfl
  | cons c l' =>
      rw [List.dropWhile_cons, if_neg (by simp [h c rfl])]

theorem getLast?_dropWhile (p : Char → Bool) (l : List Char)
    (hne : l.dropWhile p ≠ []) : (l.dropWhile p).getLast? = l.getLast? := by
  obtain ⟨u, hu⟩ := List.dropWhile_suffix p (l := l)
  conv_rhs => rw [← hu]
  rw [List.getLast?_append_of_ne_nil _ hne]

theorem pyStrip_idem (l : List Char) : pyStrip (pyStrip l) = pyStrip l := by
  have h1 : (pyStrip l).dropWhile pyIsSpace = pyStrip l := by
    apply dropWhile_self_of_head
    intro c hc
    unfold pyStrip at hc
    rw [List.head?_reverse] at hc
    by_cases hne : (l.dropWhile pyIsSpace).reverse.dropWhile pyIsSpace = []
    · rw [hne] at hc; cases hc
    · rw [getLast?_dropWhile _ _ hne, List.getLast?_reverse] at hc
      exact dropWhile_head_not _ l c hc
  show ((((pyStrip l).dropWhile pyIsSpace).reverse).dropWhile pyIsSpace).reverse = pyStrip l
  rw [h1]
  show ((((l.dropWhile pyIsSpace).reverse.dropWhile pyIsSpace).reverse).reverse.dropWhile
    pyIsSpace).reverse = pyStrip l
  rw [List.reverse_reverse, dropWhile_dropWhile]
  rfl

theorem vfParagraphs_mem {t p : List Char} (hp : p ∈ vfParagraphs t) :
    p ≠ [] ∧ pyStrip p = p := by
  unfold vfParagraphs at hp
  split_ifs at hp <;>
    (obtain ⟨hmem, hne⟩ := List.mem_filter.mp hp
     obtain ⟨piece, _, rfl⟩ := List.mem_map.mp hmem
     exact ⟨by simpa using hne, pyStrip_idem piece⟩)

theorem bvp_segments_type (t : List Char) :
    ∀ s ∈ (build_visual_payload t).segments, s.type = "paragraph".data := by
  intro s hs
  rw [bvp_segments] at hs
  obtain ⟨p, _, rfl⟩ := List.mem_map.mp hs
  rfl

/-! ## Claim C8 -/

/-- Claim C8: every paragraph is HTML-escaped before being wrapped, so
for any input containing `"<script>"` the generated HTML contains the
escaped `"&lt;script&gt;"` and never the raw `"<script>"` markup. -/
theorem claim_c8_escaping (t : List Char) (h : "<script>".data <:+: t) :
    "&lt;script&gt;".data <:+: (build_visual_payload t).html ∧
    ¬ "<script>".data <:+: (build_visual_payload t).html := by
  refine ⟨?_, html_no_script t⟩
  obtain ⟨p, hp, hsub⟩ := inf_vfParagraphs (c := '<') (d := '>')
    (by decide) (by decide) (by decide) (by decide) (by decide) (by decide) h
  have h1 : htmlEscape "<script>".data <:+: htmlEscape p := inf_flatMap escapeChar hsub
  have h2 : (htmlEscape "<script>".data).flatMap brChar <:+:
      (htmlEscape p).flatMap brChar := inf_flatMap brChar h1
  have h3 : "&lt;script&gt;".data <:+: (htmlEscape p).flatMap brChar := by
    have he : (htmlEscape "<script>".data).flatMap brChar = "&lt;script&gt;".data := by
      decide
    rwa [he] at h2
  have h4 : "&lt;script&gt;".data <:+: vfPart p := by
    unfold vfPart
    exact inf_of_app_left _ (inf_of_app_right _ h3)
  have h6 : vfPart p <:+: pyJoin ('\n' :: []) ((vfParagraphs t).map vfPart) :=
    inf_mem_pyJoin _ _ _ (List.mem_map_of_mem _ hp)
  have h7 : (build_visual_payload t).html =
      pyJoin ('\n' :: []) ((vfParagraphs t).map vfPart) := by
    rw [bvp_html, if_neg (by simp [List.isEmpty_iff, List.ne_nil_of_mem hp])]
  rw [h7]
  exact inf_trans h4 h6

/-- Witness for claim C8 at a concrete input. -/
theorem claim_c8_escaping_witness :
    "&lt;script&gt;".data <:+: (build_visual_payload "hi <script>x".data).html ∧
    ¬ "<script>".data <:+: (build_visual_payload "hi <script>x".data).html :=
  claim_c8_escaping "hi <script>x".data ⟨"hi ".data, "x".data, by decide⟩

/-! ## Claim C10 -/

/-- Claim C10 counterexample: on the empty input the formatter emits the
placeholder `<p>(empty)</p>` — one paragraph fragment in the HTML
output — while the segment list is empty, so the fragment count does
not equal the segment count. -/
theorem claim_c10_counterexample :
    (build_visual_payload []).segments.length ≠
      pairCount '<' 'p' (build_visual_payload []).html := by decide

/-- Claim C10 (amended): for every input, the markdown equals the
segment texts joined by a blank line, and every segment has type
`"paragraph"` and a non-empty text with no leading or trailing
whitespace; the number of paragraph fragments in the HTML (occurrences
of `'<'` followed by `'p'`) equals the number of segments whenever at
least one segment exists — when there are none the HTML is the single
placeholder `<p>(empty)</p>`, one fragment against zero segments. -/
theorem claim_c10_payload_shape (t : List Char) :
    (build_visual_payload t).markdown =
      pyJoin ('\n' :: '\n' :: []) ((build_visual_payload t).segments.map Segment.text) ∧
    ((build_visual_payload t).segments ≠ [] →
      pairCount '<' 'p' (build_visual_payload t).html =
        (build_visual_payload t).segments.length) ∧
    ((build_visual_payload t).segments = [] →
      (build_visual_payload t).html = "<p>(empty)</p>".data) ∧
    (∀ s ∈ (build_visual_payload t).segments,
      s.type = "paragraph".data ∧ s.text ≠ [] ∧ pyStrip s.text = s.text) := by
  have hseg : (build_visual_payload t).segments.map Segment.text = vfParagraphs t := by
    rw [bvp_segments, List.map_map]
    rw [show (Segment.text ∘ fun p => (⟨"paragraph".data, p⟩ : Segment)) = id from rfl,
      List.map_id]
  refine ⟨?_, ?_, ?_, ?_⟩
  · rw [hseg, bvp_markdown]
    split_ifs with h
    · rw [List.isEmpty_iff.mp h]
      rfl
    · rfl
  · intro hne
    have hpar : vfParagraphs t ≠ [] := by
      intro h0
      exact hne (by rw [bvp_segments, h0]; rfl)
    rw [html_pair_p hpar, bvp_segments, List.length_map]
  · intro h0
    have hpar : vfParagraphs t = [] := by
      rw [bvp_segments] at h0
      exact List.map_eq_nil_iff.mp h0
    rw [bvp_html, if_pos (by simp [hpar])]
  · intro s hs
    rw [bvp_segments] at hs
    obtain ⟨p, hp, rfl⟩ := List.mem_map.mp hs
    obtain ⟨hne, hstrip⟩ := vfParagraphs_mem hp
    exact ⟨rfl, hne, hstrip⟩

/-- Witness for claim C10's fragment-count clause at a concrete
non-empty input. -/
theorem claim_c10_payload_shape_witness :
    pairCount '<' 'p' (build_visual_payload ('x' :: [])).html =
      (build_visual_payload ('x' :: [])).segments.length :=
  (claim_c10_payload_shape ('x' :: [])).2.1 (by decide)

/-! ## Claim C4 -/

theorem bvp_segments_ne_nil {t : List Char} (hne : vfParagraphs t ≠ []) :
    (build_visual_payload t).segments ≠ [] := by
  rw [bvp_segments]
  intro h0
  exact hne (List.map_eq_nil_iff.mp h0)

theorem err_paragraphs_ne_nil (e : List Char) :
    vfParagraphs ("Error communicating with Gemini API: ".data ++ e) ≠ [] := by
  have hpre : "Error".data <:+: "Error communicating with Gemini API: ".data ++ e := by
    refine ⟨[], " communicating with Gemini API: ".data ++ e, ?_⟩
    rw [List.nil_append, ← List.append_assoc]
    have hcat : "Error".data ++ " communicating with Gemini API: ".data =
        "Error communicating with Gemini API: ".data := by decide
    rw [hcat]
  obtain ⟨p, hp, _⟩ := inf_vfParagraphs (c := 'E') (d := 'r')
    (by decide) (by decide) (by decide) (by decide) (by decide) (by decide) hpre
  exact List.ne_nil_of_mem hp

/-- On the error branch, `chat` produces exactly the error response and
stores the error text as an assistant turn. -/
theorem chat_error_eq (llm : List Char → Except (List Char) (List Char))
    (st : Store) (req : ChatRequest) (now : Nat) (e : List Char)
    (h : llm (chatPrompt st req now) = Except.error e) :
    chat true llm st req now =
      ((⟨"Error communicating with Gemini API: ".data ++ e, "gemini-2.5-flash",
        (build_visual_payload ("Error communicating with Gemini API: ".data ++ e)).html,
        (build_visual_payload ("Error communicating with Gemini API: ".data ++ e)).markdown,
        (build_visual_payload ("Error communicating with Gemini API: ".data ++ e)).segments,
        now, resolveSession req.session_id now,
        ⟨520, 140, "#0f172a".data, "#fff7f7".data, "#7a1f1f".data, "Assistant".data,
          "16px Arial".data, 22, 40⟩⟩ : ChatResponse),
       add_message (preState st req now) (resolveSession req.session_id now)
         "assistant".data ("Error communicating with Gemini API: ".data ++ e) now) := by
  unfold chat
  rw [h]
  rfl

/-- Claim C4: whenever the external call raises, the handler replies
with the error text, appends it as an `assistant` turn (on top of the
already stored user turn), formats it through the normal formatter —
every segment is `paragraph`-typed, never `error`-typed — and returns a
well-formed response (the segment list is non-empty). -/
theorem claim_c4_error_branch (llm : List Char → Except (List Char) (List Char))
    (st : Store) (req : ChatRequest) (now : Nat) (e : List Char)
    (h : llm (chatPrompt st req now) = Except.error e) :
    (chat true llm st req now).1.response =
      "Error communicating with Gemini API: ".data ++ e ∧
    (chat true llm st req now).2 =
      add_message (preState st req now) (resolveSession req.session_id now)
        "assistant".data ("Error communicating with Gemini API: ".data ++ e) now ∧
    (∀ s ∈ (chat true llm st req now).1.segments, s.type = "paragraph".data) ∧
    (chat true llm st req now).1.segments ≠ [] := by
  rw [chat_error_eq llm st req now e h]
  exact ⟨rfl, rfl, bvp_segments_type _, bvp_segments_ne_nil (err_paragraphs_ne_nil e)⟩

/-- A concrete always-failing external-model oracle. -/
def c4llm : List Char → Except (List Char) (List Char) := fun _ => Except.error "boom".data

/-- Witness for claim C4 at a concrete request and failing oracle. -/
theorem claim_c4_error_branch_witness :
    (chat true c4llm [] ⟨"hello".data, some "s", none, none⟩ 0).1.response =
      "Error communicating with Gemini API: ".data ++ "boom".data :=
  (claim_c4_error_branch c4llm [] ⟨"hello".data, some "s", none, none⟩ 0 "boom".data rfl).1
